import Mathlib

/-!
Verification development for the memoization engine in ring/func_asyncio.py.

Shallow embedding notes.

The module under study orchestrates cache reads/writes for a wrapped
computation.  Pure Python methods become Lean functions; the asyncio
coroutines are modelled as sequential pure functions (asyncio.gather over a
list preserves positional order, and the claims under study are order and
count claims, which the sequential model captures).  Backend state (the
external memcached/redis client) is modelled as an association list from
keys to (value, optional expiry); the client itself is out of scope of the
repository and is specified only through its interface.

Exceptions become an Except monad over the error taxonomy Err.  The private
per-call miss sentinel (miss_value = object() in get_or_update_many, and
the fbase.NotFound marker inside get_many_values) is embedded as Option:
none stands for the fresh sentinel object, some v for a real decoded value;
identity comparison with the fresh sentinel is exactly the isNone test.

Parts of the repository referenced but not present under src
(ring/func_base.py) are modelled from the spec where needed: key derivation
is an abstract pure function keyFn, the wrapped computation an abstract
pure function f, and each such definition carries a doc comment saying so.

Each interface-level function also returns a Trace recording, per storage
verb, the calls it issued, and the argument-sets on which the wrapped
computation was invoked, in order; every trace entry corresponds to one
call site in the source.
-/

namespace RingCache

/-- Error taxonomy of the engine, from the spec's section 7 mapped onto the
exceptions actually raised in the source: fbase.NotFound, the
NotImplementedError raised by the aiomcache bulk verbs, the TypeError raised
by AioredisStorage.touch_value for persistent caches (InvalidOperation in the
spec), the TypeError raised on execution-flavor mismatch (FlavorMismatch in
the spec), and backend-specific errors carried unchanged as a code. -/
inductive Err where
  | notFound
  | notImplemented
  | invalidOperation
  | flavorMismatch
  | backendErr (code : Nat)
deriving DecidableEq, Repr

/-- Backend state: model of the external key-value client (redis/memcached),
an association list from key to stored bytes and optional expiry.  The
client is external to the repository; this is its interface model. -/
abbrev Backend (K B : Type) := List (K × B × Option Nat)

/-- Model of the client's single-key read: first binding of the key. -/
def blookup [DecidableEq K] (s : Backend K B) (k : K) : Option B :=
  match s.find? (fun e => decide (e.1 = k)) with
  | some e => some e.2.1
  | none => none

/-- Model of the client's single-key write: bind the key, dropping any
previous binding. -/
def bset [DecidableEq K] (s : Backend K B) (k : K) (v : B) (e : Option Nat) :
    Backend K B :=
  (k, v, e) :: s.filter (fun p => !(decide (p.1 = k)))

/-- Model of the client's expiry update (redis EXPIRE): keeps every binding,
rewriting the expiry of the given key when present. -/
def bexpire [DecidableEq K] (s : Backend K B) (k : K) (e : Nat) : Backend K B :=
  s.map (fun p => if p.1 = k then (p.1, p.2.1, some e) else p)

/-- Model of AioredisStorage.set_many_values, src lines 368-374: MSET applies
the pairs left to right (later pair wins on a duplicate key, no expiry), then,
when an expire is configured, an expiry update is issued for every key
(src dispatches these fire-and-forget; modelled as applied). -/
def bmset [DecidableEq K] (s : Backend K B) (kvs : List (K × B))
    (e : Option Nat) : Backend K B :=
  let s1 := kvs.foldl (fun acc p => bset acc p.1 p.2 none) s
  match e with
  | none => s1
  | some n => kvs.foldl (fun acc p => bexpire acc p.1 n) s1

/-- Coder contract: pure encode/decode pair (spec section 4.3). -/
structure Coder (V B : Type) where
  encode : V → B
  decode : B → V

/-- Ring configuration attached to a binding: coder, default expiration and
the configured miss value (the factories pass miss_value=None). -/
structure RingConfig (V B : Type) where
  coder : Coder V B
  expire_default : Option Nat
  miss_value : V

/-- Backend-specific value-level verb set: the methods each concrete storage
class (AiomcacheStorage, AioredisStorage) defines over its client.  A state
is returned by writing verbs; a failing verb leaves the state unchanged (a
raised exception issues no write). -/
structure ValueOps (K B : Type) where
  get_value : Backend K B → K → Except Err B
  set_value : Backend K B → K → B → Option Nat → Except Err (Backend K B)
  get_many_values : Backend K B → List K → Except Err (List (Option B))
  set_many_values :
    Backend K B → List K → List B → Option Nat → Except Err (Backend K B)
  delete_many_values : Backend K B → List K → Except Err (Backend K B)
  touch_value : Backend K B → K → Option Nat → Except Err (Backend K B)

/-- Translation step of AioredisStorage.get_value, src lines 340-345, as a
function of the backend call's outcome: a backend exception propagates
unchanged (embedded via the backendErr injection), an absent key (client
returned None) raises fbase.NotFound, a present value is returned. -/
def AioredisStorage.get_value_outcome (r : Except Nat (Option B)) :
    Except Err B :=
  match r with
  | .error e => .error (.backendErr e)
  | .ok none => .error .notFound
  | .ok (some v) => .ok v

/-- Translation step of AiomcacheStorage.get_value, src lines 308-313; the
code is identical to the aioredis one. -/
def AiomcacheStorage.get_value_outcome (r : Except Nat (Option B)) :
    Except Err B :=
  match r with
  | .error e => .error (.backendErr e)
  | .ok none => .error .notFound
  | .ok (some v) => .ok v

/-- AioredisStorage, src lines 336-374, over the backend model: get_value
raises NotFound on an absent key; get_many_values maps absent entries to the
NotFound marker (none); set_many_values is redis MSET plus expiry updates;
touch_value raises (InvalidOperation) when no expire is available, src lines
358-361.  delete_many_values is not defined by this class in the source; the
fallback (fbase.StorageMixin, not under src) is modelled from the spec:
bulk verbs of a backend lacking the capability fail with NotImplemented. -/
def AioredisStorage.ops [DecidableEq K] : ValueOps K B where
  get_value s k := AioredisStorage.get_value_outcome (.ok (blookup s k))
  set_value s k v e := .ok (bset s k v e)
  get_many_values s keys := .ok (keys.map (fun k => blookup s k))
  set_many_values s keys values e := .ok (bmset s (keys.zip values) e)
  delete_many_values _ _ := .error .notImplemented
  touch_value s k e :=
    match e with
    | none => .error .invalidOperation
    | some n => .ok (bexpire s k n)

/-- AiomcacheStorage, src lines 304-333, over the backend model: get_value
and get_many_values as for redis; set_many_values and delete_many_values
raise NotImplementedError unconditionally (src lines 329-333); touch_value
forwards to the client's touch. -/
def AiomcacheStorage.ops [DecidableEq K] : ValueOps K B where
  get_value s k := AiomcacheStorage.get_value_outcome (.ok (blookup s k))
  set_value s k v e := .ok (bset s k v e)
  get_many_values s keys := .ok (keys.map (fun k => blookup s k))
  set_many_values _ _ _ _ := .error .notImplemented
  delete_many_values _ _ := .error .notImplemented
  touch_value s k e :=
    match e with
    | none => .ok s
    | some n => .ok (bexpire s k n)

/-- CommonMixinStorage.get, src lines 101-104: read the raw value then decode
it with the ring's coder. -/
def CommonMixinStorage.get (ops : ValueOps K B) (ring : RingConfig V B)
    (s : Backend K B) (k : K) : Except Err V :=
  (ops.get_value s k).map ring.coder.decode

/-- CommonMixinStorage.set, src lines 106-112, at the default expire
argument: every interface call site omits expire, so it resolves to
ring.expire_default; the value is encoded with the ring's coder. -/
def CommonMixinStorage.set (ops : ValueOps K B) (ring : RingConfig V B)
    (s : Backend K B) (k : K) (v : V) : Except Err (Backend K B) :=
  ops.set_value s k (ring.coder.encode v) ring.expire_default

/-- CommonMixinStorage.touch, src lines 124-129, at the default expire
argument: expire resolves to ring.expire_default. -/
def CommonMixinStorage.touch (ops : ValueOps K B) (ring : RingConfig V B)
    (s : Backend K B) (k : K) : Except Err (Backend K B) :=
  ops.touch_value s k ring.expire_default

/-- BulkStorageMixin.get_many, src lines 273-280, at a fresh private
sentinel: each raw value is decoded, each NotFound marker becomes the
sentinel.  The fresh sentinel object is embedded as none. -/
def BulkStorageMixin.get_many_sentinel (ops : ValueOps K B)
    (ring : RingConfig V B) (s : Backend K B) (keys : List K) :
    Except Err (List (Option V)) :=
  (ops.get_many_values s keys).map (fun vs => vs.map (Option.map ring.coder.decode))

/-- BulkStorageMixin.get_many, src lines 273-280, at a caller-supplied miss
value: identical to the sentinel form with every sentinel replaced by the
given miss value. -/
def BulkStorageMixin.get_many (ops : ValueOps K B) (ring : RingConfig V B)
    (s : Backend K B) (keys : List K) (miss : V) : Except Err (List V) :=
  (BulkStorageMixin.get_many_sentinel ops ring s keys).map
    (fun vs => vs.map (fun o => o.getD miss))

/-- BulkStorageMixin.set_many, src lines 282-287, at the default expire
argument: every value is encoded, then set_many_values is called once. -/
def BulkStorageMixin.set_many (ops : ValueOps K B) (ring : RingConfig V B)
    (s : Backend K B) (keys : List K) (values : List V) :
    Except Err (Backend K B) :=
  ops.set_many_values s keys (values.map ring.coder.encode) ring.expire_default

/-- BulkStorageMixin.delete_many, src lines 289-291. -/
def BulkStorageMixin.delete_many (ops : ValueOps K B)
    (s : Backend K B) (keys : List K) : Except Err (Backend K B) :=
  ops.delete_many_values s keys

/-- Trace of the calls an interface-level function issues, one list entry
per call in source order: keys passed to storage.get, pairs passed to
storage.set, key lists passed to storage.get_many, payloads passed to
storage.set_many, and the argument-sets on which the wrapped computation was
invoked. -/
structure Trace (K V A : Type) where
  getCalls : List K
  setCalls : List (K × V)
  getManyCalls : List (List K)
  setManyCalls : List (List K × List V)
  computed : List A
deriving DecidableEq, Repr

/-- CacheUserInterface.get, src lines 139-149.  Key derivation
(self.key, from fbase which is not under src) is modelled from the spec as
an abstract pure function keyFn from an argument-set to a key.  Only
NotFound is caught, yielding the configured miss value; other storage errors
propagate.  The wrapped computation is never invoked (the source body
contains no execute call, and accordingly this definition takes no
computation argument). -/
def CacheUserInterface.get [DecidableEq K] (ops : ValueOps K B)
    (ring : RingConfig V B) (keyFn : A → K) (s : Backend K B) (a : A) :
    Except Err V × Backend K B × Trace K V A :=
  let key := keyFn a
  match CommonMixinStorage.get ops ring s key with
  | .ok result => (.ok result, s, ⟨[key], [], [], [], []⟩)
  | .error .notFound => (.ok ring.miss_value, s, ⟨[key], [], [], [], []⟩)
  | .error e => (.error e, s, ⟨[key], [], [], [], []⟩)

/-- CacheUserInterface.get_or_update, src lines 159-168.  keyFn as in
CacheUserInterface.get; the wrapped computation (self.execute, from fbase
which is not under src) is modelled from the spec as an abstract pure
function f.  On a hit the stored decoded value is returned without
computing; on NotFound the computation runs once, the result is stored and
returned; a storage.set failure propagates after the computation ran. -/
def CacheUserInterface.get_or_update [DecidableEq K] (ops : ValueOps K B)
    (ring : RingConfig V B) (keyFn : A → K) (f : A → V) (s : Backend K B)
    (a : A) : Except Err V × Backend K B × Trace K V A :=
  let key := keyFn a
  match CommonMixinStorage.get ops ring s key with
  | .ok result => (.ok result, s, ⟨[key], [], [], [], []⟩)
  | .error .notFound =>
    let result := f a
    match CommonMixinStorage.set ops ring s key result with
    | .ok s2 => (.ok result, s2, ⟨[key], [(key, result)], [], [], [a]⟩)
    | .error e => (.error e, s, ⟨[key], [(key, result)], [], [], [a]⟩)
  | .error e => (.error e, s, ⟨[key], [], [], [], []⟩)

/-- BulkInterfaceMixin.get_many, src lines 209-214: derive every key
(self.key_many, from fbase not under src, modelled from the spec as the
pointwise map of keyFn over the argument-sets, order preserving), then issue
one storage.get_many at the ring's configured miss value.  No computation is
invoked. -/
def BulkInterfaceMixin.get_many [DecidableEq K] (ops : ValueOps K B)
    (ring : RingConfig V B) (keyFn : A → K) (s : Backend K B)
    (args_list : List A) :
    Except Err (List V) × Backend K B × Trace K V A :=
  let keys := args_list.map keyFn
  (BulkStorageMixin.get_many ops ring s keys ring.miss_value, s,
    ⟨[], [], [keys], [], []⟩)

/-- BulkInterfaceMixin.update_many, src lines 216-223: derive every key, run
the computation on every argument-set (execute_many gathers in input order),
then issue one storage.set_many; its failure propagates after all
computations ran and leaves the state unchanged (no per-key writes). -/
def BulkInterfaceMixin.update_many [DecidableEq K] (ops : ValueOps K B)
    (ring : RingConfig V B) (keyFn : A → K) (f : A → V) (s : Backend K B)
    (args_list : List A) :
    Except Err (List V) × Backend K B × Trace K V A :=
  let keys := args_list.map keyFn
  let values := args_list.map f
  match BulkStorageMixin.set_many ops ring s keys values with
  | .ok s2 => (.ok values, s2, ⟨[], [], [], [(keys, values)], args_list⟩)
  | .error e => (.error e, s, ⟨[], [], [], [(keys, values)], args_list⟩)

/-- BulkInterfaceMixin.get_or_update_many, src lines 225-248, the bulk
reconciliation algorithm.  Derive every key; issue one storage.get_many at a
fresh private sentinel (embedded as none); enumerate the zipped
(argument-set, key, read result) triples and keep the sentinel positions as
the misses, preserving original indices; run the computation once per missed
index (gather preserves order); issue one storage.set_many with exactly the
newly computed pairs (unconditionally, even when empty); then write each new
result back into the read array at its original index and return that array.
The returned entries are Option-valued because the sentinel type is; the
confirmation theorem shows every returned entry is a real value. -/
def BulkInterfaceMixin.get_or_update_many [DecidableEq K] (ops : ValueOps K B)
    (ring : RingConfig V B) (keyFn : A → K) (f : A → V) (s : Backend K B)
    (args_list : List A) :
    Except Err (List (Option V)) × Backend K B × Trace K V A :=
  let keys := args_list.map keyFn
  match BulkStorageMixin.get_many_sentinel ops ring s keys with
  | .error e => (.error e, s, ⟨[], [], [keys], [], []⟩)
  | .ok results =>
    let misses := (((args_list.zip keys).zip results).enum).filter
      (fun p => p.2.2.isNone)
    let miss_indices := misses.map (fun p => p.1)
    let new_results := misses.map (fun p => f p.2.1.1)
    let new_keys := misses.map (fun p => p.2.1.2)
    match BulkStorageMixin.set_many ops ring s new_keys new_results with
    | .ok s2 =>
      let merged := (miss_indices.zip new_results).foldl
        (fun acc p => acc.set p.1 (some p.2)) results
      (.ok merged, s2,
        ⟨[], [], [keys], [(new_keys, new_results)], misses.map (fun p => p.2.1.1)⟩)
    | .error e =>
      (.error e, s,
        ⟨[], [], [keys], [(new_keys, new_results)], misses.map (fun p => p.2.1.1)⟩)

/-- BulkInterfaceMixin.set_many, src lines 250-253: derive every key, then
one storage.set_many pass-through. -/
def BulkInterfaceMixin.set_many [DecidableEq K] (ops : ValueOps K B)
    (ring : RingConfig V B) (keyFn : A → K) (s : Backend K B)
    (args_list : List A) (value_list : List V) :
    Except Err (Backend K B) × Trace K V A :=
  let keys := args_list.map keyFn
  (BulkStorageMixin.set_many ops ring s keys value_list,
    ⟨[], [], [], [(keys, value_list)], []⟩)

/-- NonAsyncioFactoryProxyBase, src lines 38-53: wrapping a coroutine
function with a non-asyncio factory raises at wrap time (FlavorMismatch in
the spec's taxonomy) unless the force_asyncio override flag was passed. -/
def NonAsyncioFactoryProxyBase.call (is_coroutine : Bool)
    (force_asyncio : Bool) : Except Err Unit :=
  if is_coroutine && !force_asyncio then .error .flavorMismatch else .ok ()

/-- factory_doctor, src lines 90-95: the asyncio factories require the
wrapped function to be a coroutine function and raise otherwise
(FlavorMismatch in the spec's taxonomy), with no override parameter. -/
def factory_doctor (is_coroutine : Bool) : Except Err Unit :=
  if !is_coroutine then .error .flavorMismatch else .ok ()

/-- Modelled from the spec: fbase.factory (ring/func_base.py, not under src)
invokes the on_manufactured hook at binding-construction time (spec section
4.6, fail fast at wrap time).  The asyncio factories (aiomcache src lines
397-433, aioredis src lines 436-469) pass factory_doctor as that hook and
consume no override flag on this path, so the construction-time flavor check
for a blocking computation under a suspending factory ignores any
force_asyncio value. -/
def aioredis_factory_check (is_coroutine : Bool) (_force_asyncio : Bool) :
    Except Err Unit :=
  factory_doctor is_coroutine

/-! Helper lemmas about the backend model and about the list combinators
appearing in the bulk reconciliation pipeline. -/

theorem isNone_map (g : B → V) (o : Option B) :
    (o.map g).isNone = o.isNone := by
  cases o <;> rfl

theorem blookup_bset_self [DecidableEq K] (s : Backend K B) (k : K) (v : B)
    (e : Option Nat) : blookup (bset s k v e) k = some v := by
  simp [blookup, bset, List.find?]

theorem find?_filter_ne [DecidableEq K] (s : Backend K B) (k k2 : K)
    (h : k2 ≠ k) :
    (s.filter (fun p => !(decide (p.1 = k)))).find? (fun e => decide (e.1 = k2))
      = s.find? (fun e => decide (e.1 = k2)) := by
  induction s with
  | nil => rfl
  | cons p t ih =>
    by_cases hp : p.1 = k
    · rw [List.filter_cons_of_neg (by simp [hp]),
        List.find?_cons_of_neg t (by simp only [decide_eq_true_eq]; exact fun hk => h (hk ▸ hp))]
      exact ih
    · rw [List.filter_cons_of_pos (by simp [hp])]
      by_cases hc : p.1 = k2
      · rw [List.find?_cons_of_pos _ (by simp [hc]),
          List.find?_cons_of_pos t (by simp [hc])]
      · rw [List.find?_cons_of_neg _ (by simp [hc]),
          List.find?_cons_of_neg t (by simp [hc])]
        exact ih

theorem blookup_bset_ne [DecidableEq K] (s : Backend K B) (k k2 : K) (v : B)
    (e : Option Nat) (h : k2 ≠ k) :
    blookup (bset s k v e) k2 = blookup s k2 := by
  rw [blookup, bset, List.find?_cons_of_neg _ (by simp; exact fun hk => h hk.symm),
    find?_filter_ne s k k2 h, blookup]

theorem blookup_bexpire [DecidableEq K] (s : Backend K B) (k k2 : K)
    (n : Nat) : blookup (bexpire s k n) k2 = blookup s k2 := by
  induction s with
  | nil => rfl
  | cons p t ih =>
    simp only [bexpire, List.map_cons] at *
    by_cases hp : p.1 = k
    · rw [if_pos hp, blookup, blookup]
      by_cases hc : p.1 = k2
      · rw [List.find?_cons_of_pos _ (by simp [hc]),
          List.find?_cons_of_pos t (by simp [hc])]
      · rw [List.find?_cons_of_neg _ (by simp [hc]),
          List.find?_cons_of_neg t (by simp [hc])]
        exact ih
    · rw [if_neg hp, blookup, blookup]
      by_cases hc : p.1 = k2
      · rw [List.find?_cons_of_pos _ (by simp [hc]),
          List.find?_cons_of_pos t (by simp [hc])]
      · rw [List.find?_cons_of_neg _ (by simp [hc]),
          List.find?_cons_of_neg t (by simp [hc])]
        exact ih

theorem enumFrom_filter_map (p : A → Bool) (h : A → C) :
    ∀ (n : Nat) (l : List A),
    ((List.enumFrom n l).filter (fun q => p q.2)).map (fun q => h q.2)
      = (l.filter p).map h := by
  intro n l
  induction l generalizing n with
  | nil => rfl
  | cons a t ih =>
    rw [List.enumFrom_cons]
    cases hpa : p a with
    | true =>
      rw [List.filter_cons_of_pos (by simpa using hpa),
        List.filter_cons_of_pos hpa, List.map_cons, List.map_cons, ih]
    | false =>
      rw [List.filter_cons_of_neg (by simpa using hpa),
        List.filter_cons_of_neg (by simpa using hpa), ih]

theorem set_append_length (pre : List X) (x y : X) (t : List X) :
    (pre ++ x :: t).set pre.length y = pre ++ y :: t := by
  induction pre with
  | nil => rfl
  | cons a pr ih =>
    simp only [List.cons_append, List.length_cons, List.set_cons_succ, ih]

theorem merge_fill (f : A → V) (ra : A → Option V) :
    ∀ (args : List A) (pre : List (Option V)),
    ((List.enumFrom pre.length args).filter (fun q => (ra q.2).isNone)).foldl
        (fun acc q => acc.set q.1 (some (f q.2))) (pre ++ args.map ra)
      = pre ++ args.map (fun a => some ((ra a).getD (f a))) := by
  intro args
  induction args with
  | nil => intro pre; simp
  | cons a t ih =>
    intro pre
    rw [List.enumFrom_cons, List.map_cons, List.map_cons]
    cases hra : ra a with
    | some v =>
      rw [List.filter_cons_of_neg (by simp [hra])]
      have h1 : pre ++ some v :: t.map ra = (pre ++ [some v]) ++ t.map ra := by
        simp
      have h2 : pre ++ some v :: t.map (fun a => some ((ra a).getD (f a)))
          = (pre ++ [some v]) ++ t.map (fun a => some ((ra a).getD (f a))) := by
        simp
      have h3 : pre.length + 1 = (pre ++ [some v]).length := by simp
      simp only [Option.getD_some]
      rw [h1, h2, h3, ih (pre ++ [some v])]
    | none =>
      rw [List.filter_cons_of_pos (by simp [hra]), List.foldl_cons,
        set_append_length]
      have h1 : pre ++ some (f a) :: t.map ra
          = (pre ++ [some (f a)]) ++ t.map ra := by simp
      have h2 : pre ++ some (f a) :: t.map (fun a => some ((ra a).getD (f a)))
          = (pre ++ [some (f a)]) ++ t.map (fun a => some ((ra a).getD (f a))) := by
        simp
      have h3 : pre.length + 1 = (pre ++ [some (f a)]).length := by simp
      dsimp only
      simp only [Option.getD_none]
      rw [h1, h2, h3, ih (pre ++ [some (f a)])]

theorem blookup_foldl_bset_not_mem [DecidableEq K] (kvs : List (K × B)) :
    ∀ (s : Backend K B) (k : K), k ∉ kvs.map Prod.fst →
    blookup (kvs.foldl (fun acc p => bset acc p.1 p.2 none) s) k
      = blookup s k := by
  induction kvs with
  | nil => intro s k _; rfl
  | cons q t ih =>
    intro s k hk
    rw [List.map_cons, List.mem_cons] at hk
    push_neg at hk
    rw [List.foldl_cons, ih _ k hk.2, blookup_bset_ne _ _ _ _ _ hk.1]

theorem blookup_foldl_bexpire [DecidableEq K] (kvs : List (K × B)) (n : Nat) :
    ∀ (s : Backend K B) (k : K),
    blookup (kvs.foldl (fun acc p => bexpire acc p.1 n) s) k
      = blookup s k := by
  induction kvs with
  | nil => intro s k; rfl
  | cons q t ih =>
    intro s k
    rw [List.foldl_cons, ih _ k, blookup_bexpire]

theorem blookup_bmset [DecidableEq K] (s : Backend K B) (kvs : List (K × B))
    (e : Option Nat) (k : K) :
    blookup (bmset s kvs e) k
      = blookup (kvs.foldl (fun acc p => bset acc p.1 p.2 none) s) k := by
  cases e with
  | none => rfl
  | some n => exact blookup_foldl_bexpire kvs n _ k

theorem lookup_after_zip_foldl_bset [DecidableEq K] :
    ∀ (keys : List K) (vals : List B) (s : Backend K B),
    keys.Nodup → keys.length = vals.length →
    keys.map (fun k =>
        blookup ((keys.zip vals).foldl (fun acc p => bset acc p.1 p.2 none) s) k)
      = vals.map some := by
  intro keys
  induction keys with
  | nil =>
    intro vals s _ hlen
    cases vals with
    | nil => rfl
    | cons v vt => exact absurd hlen (by simp)
  | cons k kt ih =>
    intro vals s hnd hlen
    cases vals with
    | nil => exact absurd hlen (by simp)
    | cons v vt =>
      rw [List.nodup_cons] at hnd
      have hlen2 : kt.length = vt.length := by simpa using hlen
      rw [List.zip_cons_cons, List.foldl_cons, List.map_cons, List.map_cons]
      have hfst : (kt.zip vt).map Prod.fst = kt := List.map_fst_zip kt vt (le_of_eq hlen2)
      have hhead :
          blookup ((kt.zip vt).foldl (fun acc p => bset acc p.1 p.2 none)
            (bset s k v none)) k = some v := by
        rw [blookup_foldl_bset_not_mem _ _ k (by rw [hfst]; exact hnd.1),
          blookup_bset_self]
      rw [hhead, ih vt (bset s k v none) hnd.2 hlen2]

theorem zip_self_map (f : A → C) :
    ∀ l : List A, l.zip (l.map f) = l.map (fun a => (a, f a))
  | [] => rfl
  | a :: t => by
    rw [List.map_cons, List.zip_cons_cons, zip_self_map f t, List.map_cons]

/-! Claim theorems. -/

/-- C7 (amended): flavor mismatches are rejected at wrap time in both
directions, and the explicit override flag (force_asyncio) exists only in
the suspending-computation-with-blocking-interface direction: wrapping a
coroutine function with a non-asyncio factory fails unless force_asyncio is
set, a matching flavor is accepted, and the asyncio factories reject a
non-coroutine function through factory_doctor, which accepts no override. -/
theorem flavor_checks_fail_fast :
    NonAsyncioFactoryProxyBase.call true false = .error .flavorMismatch
    ∧ NonAsyncioFactoryProxyBase.call true true = .ok ()
    ∧ NonAsyncioFactoryProxyBase.call false false = .ok ()
    ∧ factory_doctor false = .error .flavorMismatch
    ∧ factory_doctor true = .ok () :=
  ⟨rfl, rfl, rfl, rfl, rfl⟩

/-- C7 counterexample: for a blocking computation under a suspending
(asyncio) factory, setting the override flag does not force acceptance —
construction still fails, because factory_doctor takes no override. -/
theorem override_ignored_for_blocking_computation :
    aioredis_factory_check false true = .error .flavorMismatch := rfl

/-- C8: the storage adapters raise NotFound exactly when the backend reports
the key absent (returns its absent marker None), propagate every other
backend error unchanged, and return a present value as is; this holds for
both the aioredis and the aiomcache adapter. -/
theorem adapters_notfound_exactly_absent (r : Except Nat (Option B)) :
    (AioredisStorage.get_value_outcome r = .error .notFound ↔ r = .ok none)
    ∧ (∀ e, r = .error e →
        AioredisStorage.get_value_outcome r = .error (.backendErr e))
    ∧ (∀ v, r = .ok (some v) → AioredisStorage.get_value_outcome r = .ok v)
    ∧ (AiomcacheStorage.get_value_outcome r = .error .notFound ↔ r = .ok none)
    ∧ (∀ e, r = .error e →
        AiomcacheStorage.get_value_outcome r = .error (.backendErr e))
    ∧ (∀ v, r = .ok (some v) → AiomcacheStorage.get_value_outcome r = .ok v) := by
  rcases r with e | o
  · simp [AioredisStorage.get_value_outcome, AiomcacheStorage.get_value_outcome]
  · rcases o with _ | v <;>
      simp [AioredisStorage.get_value_outcome, AiomcacheStorage.get_value_outcome]

/-- C8 witness at concrete outcomes. -/
theorem adapters_notfound_exactly_absent_witness :
    AioredisStorage.get_value_outcome (.ok (none : Option Nat))
        = .error .notFound
    ∧ AioredisStorage.get_value_outcome (.error 7 : Except Nat (Option Nat))
        = .error (.backendErr 7)
    ∧ AiomcacheStorage.get_value_outcome (.ok (some 5) : Except Nat (Option Nat))
        = .ok 5 :=
  ⟨(adapters_notfound_exactly_absent (.ok none)).1.mpr rfl,
    (adapters_notfound_exactly_absent (.error 7)).2.1 7 rfl,
    (adapters_notfound_exactly_absent (.ok (some 5))).2.2.2.2.2 5 rfl⟩

/-- C9: touch forwards the backend's expiration update when an expiration is
available (the default expire resolves to the ring's expire_default), and
fails with InvalidOperation when the binding is persistent (expire_default
null) on the aioredis backend, which requires an expiration for touch. -/
theorem touch_persistent_invalid [DecidableEq K]
    (ring : RingConfig V B) (s : Backend K B) (k : K) :
    (ring.expire_default = none →
      CommonMixinStorage.touch AioredisStorage.ops ring s k
        = .error .invalidOperation)
    ∧ (∀ n, ring.expire_default = some n →
      CommonMixinStorage.touch AioredisStorage.ops ring s k
        = .ok (bexpire s k n)) := by
  constructor
  · intro h
    simp [CommonMixinStorage.touch, AioredisStorage.ops, h]
  · intro n h
    simp [CommonMixinStorage.touch, AioredisStorage.ops, h]

/-- C9 witness: persistent ring fails with InvalidOperation, expiring ring
updates the expiry. -/
theorem touch_persistent_invalid_witness :
    CommonMixinStorage.touch AioredisStorage.ops
        (⟨⟨fun v : Nat => v, fun b => b⟩, none, 0⟩ : RingConfig Nat Nat)
        ([(1, 10, none)] : Backend Nat Nat) 1
      = .error .invalidOperation
    ∧ CommonMixinStorage.touch AioredisStorage.ops
        (⟨⟨fun v : Nat => v, fun b => b⟩, some 60, 0⟩ : RingConfig Nat Nat)
        ([(1, 10, none)] : Backend Nat Nat) 1
      = .ok [(1, 10, some 60)] :=
  ⟨(touch_persistent_invalid _ _ _).1 rfl,
    (touch_persistent_invalid _ _ _).2 60 rfl⟩

/-- C4: get derives the key, reads storage, returns the decoded stored value
on a hit and the configured miss value on an absent key (NotFound), and in
either case issues no computation (the computed trace is empty; the
definition takes no computation argument at all). -/
theorem get_hit_or_miss_value [DecidableEq K]
    (ring : RingConfig V B) (keyFn : A → K) (s : Backend K B) (a : A) :
    (∀ b, blookup s (keyFn a) = some b →
      CacheUserInterface.get AioredisStorage.ops ring keyFn s a
        = (.ok (ring.coder.decode b), s, ⟨[keyFn a], [], [], [], []⟩))
    ∧ (blookup s (keyFn a) = none →
      CacheUserInterface.get AioredisStorage.ops ring keyFn s a
        = (.ok ring.miss_value, s, ⟨[keyFn a], [], [], [], []⟩)) := by
  constructor
  · intro b hb
    simp [CacheUserInterface.get, CommonMixinStorage.get, AioredisStorage.ops,
      AioredisStorage.get_value_outcome, Except.map, hb]
  · intro hb
    simp [CacheUserInterface.get, CommonMixinStorage.get, AioredisStorage.ops,
      AioredisStorage.get_value_outcome, Except.map, hb]

/-- C4 witness: a stored key decodes, a never-set key yields the miss value,
and neither run computes anything. -/
theorem get_hit_or_miss_value_witness :
    CacheUserInterface.get AioredisStorage.ops
        (⟨⟨fun v : Nat => v + 100, fun b => b - 100⟩, none, 0⟩ : RingConfig Nat Nat)
        (fun a : Nat => a * 2) ([(2, 105, none)] : Backend Nat Nat) 1
      = (.ok 5, [(2, 105, none)], ⟨[2], [], [], [], []⟩)
    ∧ CacheUserInterface.get AioredisStorage.ops
        (⟨⟨fun v : Nat => v + 100, fun b => b - 100⟩, none, 0⟩ : RingConfig Nat Nat)
        (fun a : Nat => a * 2) ([(2, 105, none)] : Backend Nat Nat) 3
      = (.ok 0, [(2, 105, none)], ⟨[6], [], [], [], []⟩) :=
  ⟨(get_hit_or_miss_value
      (⟨⟨fun v : Nat => v + 100, fun b => b - 100⟩, none, 0⟩ : RingConfig Nat Nat)
      (fun a : Nat => a * 2) ([(2, 105, none)] : Backend Nat Nat) 1).1 105 rfl,
    (get_hit_or_miss_value
      (⟨⟨fun v : Nat => v + 100, fun b => b - 100⟩, none, 0⟩ : RingConfig Nat Nat)
      (fun a : Nat => a * 2) ([(2, 105, none)] : Backend Nat Nat) 3).2 rfl⟩

/-- C2: get_or_update returns the stored decoded value without computing on
a hit; on NotFound it computes exactly once, stores the encoded result under
the derived key, and returns the computed result; and two successive
identical calls against an initially empty backend compute exactly once in
total (once on the first call, zero times on the second). -/
theorem get_or_update_computes_once_on_miss [DecidableEq K]
    (ring : RingConfig V B) (keyFn : A → K) (f : A → V) (s : Backend K B)
    (a : A) :
    (∀ b, blookup s (keyFn a) = some b →
      CacheUserInterface.get_or_update AioredisStorage.ops ring keyFn f s a
        = (.ok (ring.coder.decode b), s, ⟨[keyFn a], [], [], [], []⟩))
    ∧ (blookup s (keyFn a) = none →
      CacheUserInterface.get_or_update AioredisStorage.ops ring keyFn f s a
        = (.ok (f a),
            bset s (keyFn a) (ring.coder.encode (f a)) ring.expire_default,
            ⟨[keyFn a], [(keyFn a, f a)], [], [], [a]⟩))
    ∧ ((CacheUserInterface.get_or_update AioredisStorage.ops ring keyFn f
          ([] : Backend K B) a).2.2.computed = [a]
        ∧ (CacheUserInterface.get_or_update AioredisStorage.ops ring keyFn f
            (CacheUserInterface.get_or_update AioredisStorage.ops ring keyFn f
              ([] : Backend K B) a).2.1 a).2.2.computed = []) := by
  have hhit : ∀ (s2 : Backend K B) (b : B), blookup s2 (keyFn a) = some b →
      CacheUserInterface.get_or_update AioredisStorage.ops ring keyFn f s2 a
        = (.ok (ring.coder.decode b), s2, ⟨[keyFn a], [], [], [], []⟩) := by
    intro s2 b hb
    simp [CacheUserInterface.get_or_update, CommonMixinStorage.get,
      AioredisStorage.ops, AioredisStorage.get_value_outcome, Except.map, hb]
  have hmiss : ∀ (s2 : Backend K B), blookup s2 (keyFn a) = none →
      CacheUserInterface.get_or_update AioredisStorage.ops ring keyFn f s2 a
        = (.ok (f a),
            bset s2 (keyFn a) (ring.coder.encode (f a)) ring.expire_default,
            ⟨[keyFn a], [(keyFn a, f a)], [], [], [a]⟩) := by
    intro s2 hb
    simp [CacheUserInterface.get_or_update, CommonMixinStorage.get,
      CommonMixinStorage.set, AioredisStorage.ops,
      AioredisStorage.get_value_outcome, Except.map, hb]
  refine ⟨fun b hb => hhit s b hb, hmiss s, ?_, ?_⟩
  · rw [hmiss ([] : Backend K B) rfl]
  · rw [hmiss ([] : Backend K B) rfl]
    rw [hhit _ (ring.coder.encode (f a)) (blookup_bset_self _ _ _ _)]

/-- C2 witness: concrete hit, miss and two-call runs. -/
theorem get_or_update_computes_once_on_miss_witness :
    CacheUserInterface.get_or_update AioredisStorage.ops
        (⟨⟨fun v : Nat => v + 100, fun b => b - 100⟩, none, 0⟩ : RingConfig Nat Nat)
        (fun a : Nat => a * 2) (fun a => a + 7) ([(2, 105, none)] : Backend Nat Nat) 1
      = (.ok 5, [(2, 105, none)], ⟨[2], [], [], [], []⟩)
    ∧ CacheUserInterface.get_or_update AioredisStorage.ops
        (⟨⟨fun v : Nat => v + 100, fun b => b - 100⟩, none, 0⟩ : RingConfig Nat Nat)
        (fun a : Nat => a * 2) (fun a => a + 7) ([] : Backend Nat Nat) 1
      = (.ok 8, [(2, 108, none)], ⟨[2], [(2, 8)], [], [], [1]⟩) :=
  ⟨(get_or_update_computes_once_on_miss
      (⟨⟨fun v : Nat => v + 100, fun b => b - 100⟩, none, 0⟩ : RingConfig Nat Nat)
      (fun a : Nat => a * 2) (fun a => a + 7)
      ([(2, 105, none)] : Backend Nat Nat) 1).1 105 rfl,
    (get_or_update_computes_once_on_miss
      (⟨⟨fun v : Nat => v + 100, fun b => b - 100⟩, none, 0⟩ : RingConfig Nat Nat)
      (fun a : Nat => a * 2) (fun a => a + 7)
      ([] : Backend Nat Nat) 1).2.1 rfl⟩

/-- C5: get_many derives every key, issues exactly one storage.get_many, and
returns a list positionally aligned to the input in which each present entry
is the decoded stored value and each absent entry is the configured miss
value; the computation trace is empty (the definition takes no computation
argument at all). -/
theorem get_many_aligned_no_compute [DecidableEq K]
    (ring : RingConfig V B) (keyFn : A → K) (s : Backend K B)
    (args : List A) :
    BulkInterfaceMixin.get_many AioredisStorage.ops ring keyFn s args
      = (.ok (args.map (fun a =>
            ((blookup s (keyFn a)).map ring.coder.decode).getD ring.miss_value)),
          s, ⟨[], [], [args.map keyFn], [], []⟩) := by
  simp [BulkInterfaceMixin.get_many, BulkStorageMixin.get_many,
    BulkStorageMixin.get_many_sentinel, AioredisStorage.ops, Except.map,
    List.map_map, Function.comp]

/-- C3: on a backend lacking a native bulk capability (aiomcache), the bulk
storage verbs fail with NotImplemented instead of iterating over single-item
verbs: storage-level set_many and delete_many fail for every input, and
update_many and interface-level set_many, which call storage set_many, fail
with the state unchanged — no per-key write is issued. -/
theorem bulk_verbs_not_emulated [DecidableEq K]
    (ring : RingConfig V B) (keyFn : A → K) (f : A → V) (s : Backend K B)
    (keys : List K) (values : List V) (args : List A) :
    BulkStorageMixin.set_many AiomcacheStorage.ops ring s keys values
        = .error .notImplemented
    ∧ BulkStorageMixin.delete_many AiomcacheStorage.ops s keys
        = .error .notImplemented
    ∧ BulkInterfaceMixin.update_many AiomcacheStorage.ops ring keyFn f s args
        = (.error .notImplemented, s,
            ⟨[], [], [], [(args.map keyFn, args.map f)], args⟩)
    ∧ (BulkInterfaceMixin.set_many AiomcacheStorage.ops ring keyFn s args
          values).1
        = .error .notImplemented :=
  ⟨rfl, rfl, rfl, rfl⟩

theorem enumFrom_filter_snd (p : A → Bool) (n : Nat) (l : List A) :
    ((List.enumFrom n l).filter (fun q => p q.2)).map (fun q => q.2)
      = l.filter p := by
  have h := enumFrom_filter_map p (fun a => a) n l
  simpa using h

theorem merge_fill_nil (f : A → V) (ra : A → Option V) (args : List A) :
    ((List.enumFrom 0 args).filter (fun q => (ra q.2).isNone)).foldl
        (fun acc q => acc.set q.1 (some (f q.2))) (args.map ra)
      = args.map (fun a => some ((ra a).getD (f a))) := by
  have h := merge_fill f ra args []
  simpa using h

theorem enumFrom_map_filter (g : A → C) (p : C → Bool) :
    ∀ (n : Nat) (l : List A),
    (List.enumFrom n (l.map g)).filter (fun q => p q.2)
      = ((List.enumFrom n l).filter (fun q => p (g q.2))).map
          (fun q => (q.1, g q.2)) := by
  intro n l
  induction l generalizing n with
  | nil => rfl
  | cons a t ih =>
    rw [List.map_cons, List.enumFrom_cons, List.enumFrom_cons]
    cases hpa : p (g a) with
    | true =>
      rw [List.filter_cons_of_pos (by simpa using hpa),
        List.filter_cons_of_pos (by simpa using hpa), List.map_cons, ih]
    | false =>
      rw [List.filter_cons_of_neg (by simpa using hpa),
        List.filter_cons_of_neg (by simpa using hpa), ih]

/-- C1: the bulk reconciliation of get_or_update_many over a working backend
(aioredis model): the returned list is positionally aligned with the inputs
(the map form gives length N and original order), every hit position holds
the decoded stored value and every miss position the newly computed value,
no private sentinel leaks (every returned entry is a real value), exactly
one bulk read is issued carrying all N derived keys, exactly one bulk write
is issued carrying exactly the newly computed key-value pairs, and the
wrapped computation runs exactly once per missed position, in index order,
and never for a hit. -/
theorem get_or_update_many_reconciliation [DecidableEq K]
    (ring : RingConfig V B) (keyFn : A → K) (f : A → V) (s : Backend K B)
    (args : List A) :
    BulkInterfaceMixin.get_or_update_many AioredisStorage.ops ring keyFn f s
        args
      = (.ok (args.map (fun a => some
            (((blookup s (keyFn a)).map ring.coder.decode).getD (f a)))),
          bmset s
            (((args.filter (fun a => (blookup s (keyFn a)).isNone)).map
                keyFn).zip
              (((args.filter (fun a => (blookup s (keyFn a)).isNone)).map
                  f).map ring.coder.encode))
            ring.expire_default,
          ⟨[], [], [args.map keyFn],
            [((args.filter (fun a => (blookup s (keyFn a)).isNone)).map keyFn,
              (args.filter (fun a => (blookup s (keyFn a)).isNone)).map f)],
            args.filter (fun a => (blookup s (keyFn a)).isNone)⟩) := by
  have hread : BulkStorageMixin.get_many_sentinel AioredisStorage.ops ring s
      (args.map keyFn)
      = .ok (args.map (fun a => (blookup s (keyFn a)).map ring.coder.decode)) := by
    simp [BulkStorageMixin.get_many_sentinel, AioredisStorage.ops, Except.map,
      List.map_map, Function.comp]
  have hset : ∀ (nk : List K) (nr : List V),
      BulkStorageMixin.set_many AioredisStorage.ops ring s nk nr
        = .ok (bmset s (nk.zip (nr.map ring.coder.encode))
            ring.expire_default) := fun _ _ => rfl
  simp only [BulkInterfaceMixin.get_or_update_many, hread, hset]
  rw [zip_self_map keyFn args]
  rw [List.zip_map' (fun a => (a, keyFn a))
      (fun a => Option.map ring.coder.decode (blookup s (keyFn a))) args]
  rw [List.enum_eq_enumFrom]
  rw [enumFrom_map_filter
      (fun a => ((a, keyFn a), Option.map ring.coder.decode (blookup s (keyFn a))))
      (fun c => c.2.isNone) 0 args]
  simp only [List.map_map, Function.comp_def]
  try dsimp only
  rw [List.zip_map']
  rw [List.foldl_map]
  try dsimp only
  rw [merge_fill_nil f
      (fun a => Option.map ring.coder.decode (blookup s (keyFn a))) args]
  rw [enumFrom_filter_snd
      (fun a => (Option.map ring.coder.decode (blookup s (keyFn a))).isNone)
      0 args]
  rw [enumFrom_filter_map
      (fun a => (Option.map ring.coder.decode (blookup s (keyFn a))).isNone)
      keyFn 0 args]
  rw [enumFrom_filter_map
      (fun a => (Option.map ring.coder.decode (blookup s (keyFn a))).isNone)
      (fun a => ring.coder.encode (f a)) 0 args]
  rw [enumFrom_filter_map
      (fun a => (Option.map ring.coder.decode (blookup s (keyFn a))).isNone)
      f 0 args]
  simp only [isNone_map]
  try rfl

/-- C10: get_or_update_many issues its storage.set_many call unconditionally;
on the aiomcache backend, whose bulk-set verb fails with NotImplemented, the
call fails even when every requested key is already cached: the bulk read
succeeds, no computation would be needed, the empty bulk write is still
attempted and its NotImplemented failure propagates, leaving the state
unchanged. -/
theorem get_or_update_many_requires_bulk_set [DecidableEq K]
    (ring : RingConfig V B) (keyFn : A → K) (f : A → V) (s : Backend K B)
    (args : List A) (hall : ∀ a ∈ args, (blookup s (keyFn a)).isSome) :
    BulkInterfaceMixin.get_or_update_many AiomcacheStorage.ops ring keyFn f s
        args
      = (.error .notImplemented, s,
          ⟨[], [], [args.map keyFn], [([], [])], []⟩) := by
  have hread : BulkStorageMixin.get_many_sentinel AiomcacheStorage.ops ring s
      (args.map keyFn)
      = .ok (args.map (fun a => (blookup s (keyFn a)).map ring.coder.decode)) := by
    simp [BulkStorageMixin.get_many_sentinel, AiomcacheStorage.ops, Except.map,
      List.map_map, Function.comp]
  have hset : ∀ (nk : List K) (nr : List V),
      BulkStorageMixin.set_many AiomcacheStorage.ops ring s nk nr
        = .error .notImplemented := fun _ _ => rfl
  have hfilter : args.filter
      (fun a => (Option.map ring.coder.decode (blookup s (keyFn a))).isNone)
      = [] := by
    rw [List.filter_eq_nil_iff]
    intro a ha
    obtain ⟨b, hb⟩ := Option.isSome_iff_exists.mp (hall a ha)
    simp [hb]
  simp only [BulkInterfaceMixin.get_or_update_many, hread, hset]
  rw [zip_self_map keyFn args]
  rw [List.zip_map' (fun a => (a, keyFn a))
      (fun a => Option.map ring.coder.decode (blookup s (keyFn a))) args]
  rw [List.enum_eq_enumFrom]
  rw [enumFrom_map_filter
      (fun a => ((a, keyFn a), Option.map ring.coder.decode (blookup s (keyFn a))))
      (fun c => c.2.isNone) 0 args]
  simp only [List.map_map, Function.comp_def]
  try dsimp only
  rw [enumFrom_filter_snd
      (fun a => (Option.map ring.coder.decode (blookup s (keyFn a))).isNone)
      0 args]
  rw [enumFrom_filter_map
      (fun a => (Option.map ring.coder.decode (blookup s (keyFn a))).isNone)
      keyFn 0 args]
  rw [enumFrom_filter_map
      (fun a => (Option.map ring.coder.decode (blookup s (keyFn a))).isNone)
      f 0 args]
  rw [hfilter]
  simp

/-- C10 witness: a single argument whose key is already cached on the
aiomcache model still fails with NotImplemented. -/
theorem get_or_update_many_requires_bulk_set_witness :
    BulkInterfaceMixin.get_or_update_many AiomcacheStorage.ops
        (⟨⟨fun v : Nat => v + 100, fun b => b - 100⟩, none, 0⟩ : RingConfig Nat Nat)
        (fun a : Nat => a * 2) (fun a => a + 7)
        ([(2, 105, none)] : Backend Nat Nat) [1]
      = (.error .notImplemented, [(2, 105, none)],
          ⟨[], [], [[2]], [([], [])], []⟩) :=
  get_or_update_many_requires_bulk_set
    (⟨⟨fun v : Nat => v + 100, fun b => b - 100⟩, none, 0⟩ : RingConfig Nat Nat)
    (fun a : Nat => a * 2) (fun a => a + 7)
    ([(2, 105, none)] : Backend Nat Nat) [1] (by decide)

/-- C6 (amended): with a round-tripping coder, set then get returns the
written value, and set_many followed by get_many with the same keys returns
the just-set values order-aligned, provided the keys are pairwise distinct
(with a duplicated key the later write wins, see the counterexample). -/
theorem coder_roundtrip_storage [DecidableEq K]
    (ring : RingConfig V B)
    (hrt : ∀ v, ring.coder.decode (ring.coder.encode v) = v)
    (s : Backend K B) (k : K) (v : V) (keys : List K) (values : List V)
    (miss : V) (hnd : keys.Nodup) (hlen : keys.length = values.length) :
    CommonMixinStorage.set AioredisStorage.ops ring s k v
        = .ok (bset s k (ring.coder.encode v) ring.expire_default)
    ∧ CommonMixinStorage.get AioredisStorage.ops ring
        (bset s k (ring.coder.encode v) ring.expire_default) k = .ok v
    ∧ BulkStorageMixin.set_many AioredisStorage.ops ring s keys values
        = .ok (bmset s (keys.zip (values.map ring.coder.encode))
            ring.expire_default)
    ∧ BulkStorageMixin.get_many AioredisStorage.ops ring
        (bmset s (keys.zip (values.map ring.coder.encode))
          ring.expire_default)
        keys miss
        = .ok values := by
  refine ⟨rfl, ?_, rfl, ?_⟩
  · simp [CommonMixinStorage.get, AioredisStorage.ops,
      AioredisStorage.get_value_outcome, blookup_bset_self, Except.map, hrt v]
  · have hmset : keys.map (fun k2 =>
        blookup (bmset s (keys.zip (values.map ring.coder.encode))
          ring.expire_default) k2)
        = (values.map ring.coder.encode).map some := by
      have hswap : keys.map (fun k2 =>
          blookup (bmset s (keys.zip (values.map ring.coder.encode))
            ring.expire_default) k2)
          = keys.map (fun k2 =>
              blookup ((keys.zip (values.map ring.coder.encode)).foldl
                (fun acc p => bset acc p.1 p.2 none) s) k2) :=
        List.map_congr_left (fun k2 _ => blookup_bmset s _ _ k2)
      rw [hswap]
      exact lookup_after_zip_foldl_bset keys (values.map ring.coder.encode) s
        hnd (by simpa using hlen)
    have hcomp : keys.map (fun k2 =>
          ((blookup (bmset s (keys.zip (values.map ring.coder.encode))
            ring.expire_default) k2).map ring.coder.decode).getD miss)
        = values := by
      calc keys.map (fun k2 =>
            ((blookup (bmset s (keys.zip (values.map ring.coder.encode))
              ring.expire_default) k2).map ring.coder.decode).getD miss)
          = (keys.map (fun k2 =>
              blookup (bmset s (keys.zip (values.map ring.coder.encode))
                ring.expire_default) k2)).map
              (fun o => (o.map ring.coder.decode).getD miss) := by
            rw [List.map_map]; rfl
        _ = ((values.map ring.coder.encode).map some).map
              (fun o => (o.map ring.coder.decode).getD miss) := by
            rw [hmset]
        _ = values.map (fun v2 =>
              ((some (ring.coder.encode v2)).map ring.coder.decode).getD miss) := by
            rw [List.map_map, List.map_map]; rfl
        _ = values.map (fun v2 => v2) :=
            List.map_congr_left (fun v2 _ => by simp [hrt v2])
        _ = values := by simp
    calc BulkStorageMixin.get_many AioredisStorage.ops ring
          (bmset s (keys.zip (values.map ring.coder.encode))
            ring.expire_default) keys miss
        = .ok (keys.map (fun k2 =>
            ((blookup (bmset s (keys.zip (values.map ring.coder.encode))
              ring.expire_default) k2).map ring.coder.decode).getD miss)) := by
          simp [BulkStorageMixin.get_many, BulkStorageMixin.get_many_sentinel,
            AioredisStorage.ops, Except.map, List.map_map, Function.comp]
      _ = .ok values := congrArg Except.ok hcomp

/-- C6 counterexample: with the identity coder (a round-trip pair) and the
duplicated key list, set_many of values 1 and 2 under keys 0 and 0 followed
by get_many of the same keys returns 2 at both positions, not the just-set
values 1 and 2: the claim fails without a distinctness assumption on keys. -/
theorem set_many_get_many_duplicate_keys :
    BulkStorageMixin.set_many AioredisStorage.ops
        (⟨⟨fun v : Nat => v, fun b => b⟩, none, 0⟩ : RingConfig Nat Nat)
        ([] : Backend Nat Nat) [0, 0] [1, 2]
      = .ok [(0, 2, none)]
    ∧ BulkStorageMixin.get_many AioredisStorage.ops
        (⟨⟨fun v : Nat => v, fun b => b⟩, none, 0⟩ : RingConfig Nat Nat)
        ([(0, 2, none)] : Backend Nat Nat) [0, 0] 0
      = .ok [2, 2] :=
  ⟨rfl, rfl⟩

/-- C6 witness: distinct keys, identity coder, concrete round trip. -/
theorem coder_roundtrip_storage_witness :
    BulkStorageMixin.get_many AioredisStorage.ops
        (⟨⟨fun v : Nat => v, fun b => b⟩, none, 0⟩ : RingConfig Nat Nat)
        ([(2, 20, none), (1, 10, none)] : Backend Nat Nat) [1, 2] 0
      = .ok [10, 20] := by
  have h := (coder_roundtrip_storage
      (⟨⟨fun v : Nat => v, fun b => b⟩, none, 0⟩ : RingConfig Nat Nat)
      (fun _ => rfl) ([] : Backend Nat Nat) 0 0 [1, 2] [10, 20] 0
      (by decide) rfl).2.2.2
  exact h

end RingCache
